import Mathlib

/-!
Verification of the wholeslide example library: the multipart stream decoder
(`dpat_wholeslide/multipart.py`) and the DeepZoom pyramid descriptor
(`dpat_wholeslide/dzidesc.py`).  Byte strings are modelled as `List Nat`
(one entry per byte; all data involved is ASCII, where UTF-8 decoding is the
identity on code points).  Python slices `b[:k]`/`b[k:]` with negative or
out-of-range indices clamp exactly like `List.take`/`List.drop` on `Nat`
after rewriting a negative index `-k` as `length - k` (truncated at 0).
The generator-based parser is modelled as explicit state passing with a
fuel parameter for the unbounded read loops; fuel exhaustion is a separate
error value that never occurs in any run considered here.
-/

set_option maxRecDepth 100000

abbrev Bytes := List Nat

/-- Code points of a string literal, used to write concrete byte strings. -/
def strBytes (s : String) : Bytes := s.toList.map (fun c => c.toNat)

/-- `l.find(pat)` of Python bytes: index of the first occurrence of `pat`
as a contiguous sublist, `none` when absent (Python returns `-1`). -/
def findSub (pat : Bytes) (l : Bytes) : Option Nat :=
  if pat.isPrefixOf l then some 0
  else
    match l with
    | [] => none
    | _ :: t => (findSub pat t).map (fun i => i + 1)

/-- `MultipartParser` state: the accumulation buffer and the unread chunks. -/
structure MState where
  buffer : Bytes
  chunks : List Bytes
deriving DecidableEq

/-- Failure modes of the decoder.  `endOfStream` is the
`RuntimeError("End of stream reached")` of `_read_next_chunk_from_stream`,
`noStartBoundary` the `RuntimeError` of `_read_first_boundary_start`,
`endDelimiterMidStream` the `RuntimeError` of `_check_for_end_of_stream`,
`filenameMissing` the `ValueError` of `_parse_filename_from_header`.
`outOfFuel` is an artefact of the fuelled embedding only. -/
inductive MPErr where
  | endOfStream
  | noStartBoundary
  | endDelimiterMidStream
  | filenameMissing
  | outOfFuel
deriving DecidableEq

instance {ε α : Type} [DecidableEq ε] [DecidableEq α] : DecidableEq (Except ε α) := fun a b =>
  match a, b with
  | Except.ok x, Except.ok y =>
    match decEq x y with
    | isTrue h => isTrue (by rw [h])
    | isFalse h => isFalse (fun hh => h (by cases hh; rfl))
  | Except.ok _, Except.error _ => isFalse (fun h => Except.noConfusion h)
  | Except.error _, Except.ok _ => isFalse (fun h => Except.noConfusion h)
  | Except.error x, Except.error y =>
    match decEq x y with
    | isTrue h => isTrue (by rw [h])
    | isFalse h => isFalse (fun hh => h (by cases hh; rfl))

/-- `--BOUNDARY`, the `_start_boundary` of the parser. -/
def startBd (bd : Bytes) : Bytes := strBytes ("--") ++ bd

/-- `\r\n--BOUNDARY`, the `_boundary` token searched inside bodies. -/
def boundaryBd (bd : Bytes) : Bytes := strBytes ("\r\n") ++ startBd bd

/-- `--\r\n`, the `END_DELIMITER`. -/
def endDelim : Bytes := strBytes ("--\r\n")

/-- `\r\n\r\n`, the `HEADER_DELIMITER`. -/
def headerDelim : Bytes := strBytes ("\r\n\r\n")

/-- `_read_next_chunk_from_stream`: next chunk or `RuntimeError`. -/
def readNextChunk (cs : List Bytes) : Except MPErr (Bytes × List Bytes) :=
  match cs with
  | [] => Except.error MPErr.endOfStream
  | c :: rest => Except.ok (c, rest)

/-- First half of `_check_for_end_of_stream`: when the buffer is shorter
than the end delimiter, one more chunk is read and appended. -/
def topUpForEnd (st : MState) : Except MPErr MState :=
  if st.buffer.length < endDelim.length then
    match readNextChunk st.chunks with
    | Except.error e => Except.error e
    | Except.ok (c, rest) => Except.ok (MState.mk (st.buffer ++ c) rest)
  else Except.ok st

/-- `_check_for_end_of_stream`: after a boundary has been consumed, decide
whether the stream has ended.  Mirrors the Python branch for branch:
the end delimiter must be a prefix of the (topped-up) buffer, the buffer
must be exactly the delimiter and the chunk iterator exhausted, otherwise
`RuntimeError` (modelled as `endDelimiterMidStream`). -/
def checkForEndOfStream (st : MState) : Except MPErr (Bool × MState) :=
  match topUpForEnd st with
  | Except.error e => Except.error e
  | Except.ok st2 =>
    if endDelim.isPrefixOf st2.buffer then
      if st2.buffer.length ≠ endDelim.length then Except.error MPErr.endDelimiterMidStream
      else
        match st2.chunks with
        | [] => Except.ok (true, st2)
        | _ :: _ => Except.error MPErr.endDelimiterMidStream
    else Except.ok (false, st2)

/-- Whitespace bytes stripped by Python `str.strip()` (ASCII range). -/
def isWSb (b : Nat) : Bool := b = 32 || b = 9 || b = 10 || b = 13 || b = 11 || b = 12

/-- `str.lower()` on ASCII bytes. -/
def lowerB (l : Bytes) : Bytes := l.map (fun b => if 65 ≤ b && b ≤ 90 then b + 32 else b)

/-- `s.strip()` on ASCII bytes. -/
def stripB (l : Bytes) : Bytes := ((l.dropWhile isWSb).reverse.dropWhile isWSb).reverse

/-- `s.strip('"')`: drop every leading and trailing double-quote byte. -/
def stripQ (l : Bytes) : Bytes :=
  ((l.dropWhile (fun b => b == 34)).reverse.dropWhile (fun b => b == 34)).reverse

/-- `s.split("\r\n")`. -/
def splitCRLF : Bytes → List Bytes
  | [] => [[]]
  | 13 :: 10 :: rest => [] :: splitCRLF rest
  | b :: rest =>
    match splitCRLF rest with
    | h :: t => (b :: h) :: t
    | [] => [[b]]

/-- `s.split(";")` (byte 59). -/
def splitSemi : Bytes → List Bytes
  | [] => [[]]
  | 59 :: rest => [] :: splitSemi rest
  | b :: rest =>
    match splitSemi rest with
    | h :: t => (b :: h) :: t
    | [] => [[b]]

/-- `s.partition("=")` (byte 61), keeping only the two sides. -/
def partitionEq (l : Bytes) : Bytes × Bytes :=
  match findSub [61] l with
  | some i => (l.take i, l.drop (i + 1))
  | none => (l, [])

/-- `_parse_filename_from_header`: scan header lines for a
`Content-Disposition` line and return its unquoted `filename` parameter. -/
def parseFilenameFromHeader (header : Bytes) : Option Bytes :=
  (splitCRLF header).findSome? (fun line =>
    if (strBytes ("content-disposition")).isPrefixOf (lowerB line) then
      match splitSemi line with
      | [] => none
      | _ :: params =>
        params.findSome? (fun param =>
          let kv := partitionEq (stripB param)
          if lowerB kv.1 = strBytes ("filename") then some (stripQ kv.2) else none)
    else none)

/-- `_parse_part_header`: pull chunks until `\r\n\r\n` is found, return the
filename of the header before it; the buffer keeps the data after it. -/
def parsePartHeaderLoop : Nat → MState → Except MPErr (Bytes × MState)
  | fuel, st =>
    match findSub headerDelim st.buffer with
    | some i =>
      match parseFilenameFromHeader (st.buffer.take i) with
      | some fn => Except.ok (fn, MState.mk (st.buffer.drop (i + headerDelim.length)) st.chunks)
      | none => Except.error MPErr.filenameMissing
    | none =>
      match fuel with
      | 0 => Except.error MPErr.outOfFuel
      | Nat.succ f =>
        match readNextChunk st.chunks with
        | Except.error e => Except.error e
        | Except.ok (c, rest) => parsePartHeaderLoop f (MState.mk (st.buffer ++ c) rest)

/-- `_parse_part_chunks`: read the body of a part up to the boundary token,
returning the yielded fragments in order together with the final state.
Mirrors the source exactly, in particular:
`buffer[-boundary_length+1:]` is `drop (length - (L-1))`,
`buffer[:-boundary_length+1+e]` is `take (length - (L-1-e))`,
`next_chunk[:boundary_length-1+e]` is `take (L-1+e)`, and the junction
match is only taken when the found index is strictly positive. -/
def parsePartChunksLoop (bd : Bytes) : Nat → MState → Except MPErr (List Bytes × MState)
  | fuel, st =>
    match findSub (boundaryBd bd) st.buffer with
    | some e =>
      Except.ok ([st.buffer.take e], MState.mk (st.buffer.drop (e + (boundaryBd bd).length)) st.chunks)
    | none =>
      match fuel with
      | 0 => Except.error MPErr.outOfFuel
      | Nat.succ f =>
        match readNextChunk st.chunks with
        | Except.error err => Except.error err
        | Except.ok (c, rest) =>
          let L := (boundaryBd bd).length
          let firstCB := st.buffer.drop (st.buffer.length - (L - 1))
          let secondCB := c.take (L - 1)
          match Option.filter (fun e => decide (0 < e)) (findSub (boundaryBd bd) (firstCB ++ secondCB)) with
          | some e =>
            Except.ok ([st.buffer.take (st.buffer.length - ((L - 1) - e))],
                       MState.mk (c.take ((L - 1) + e)) rest)
          | none =>
            match parsePartChunksLoop bd f (MState.mk c rest) with
            | Except.error err => Except.error err
            | Except.ok (frs, st2) => Except.ok (st.buffer :: frs, st2)

/-- The loop body of `parts()`: check for end of stream, then parse one
header and one body and recurse. -/
def partsLoop (bd : Bytes) : Nat → MState → Except MPErr (List (Bytes × List Bytes))
  | fuel, st =>
    match checkForEndOfStream st with
    | Except.error e => Except.error e
    | Except.ok (true, _) => Except.ok []
    | Except.ok (false, st1) =>
      match fuel with
      | 0 => Except.error MPErr.outOfFuel
      | Nat.succ f =>
        match parsePartHeaderLoop f st1 with
        | Except.error e => Except.error e
        | Except.ok (fn, st2) =>
          match parsePartChunksLoop bd f st2 with
          | Except.error e => Except.error e
          | Except.ok (frs, st3) =>
            match partsLoop bd f st3 with
            | Except.error e => Except.error e
            | Except.ok ps => Except.ok ((fn, frs) :: ps)

/-- `parts()` driven to completion with every body fully drained: read the
first chunk, require the literal start boundary, drop `boundary_length`
bytes (the start boundary and the following `\r\n`) and run the loop. -/
def partsRun (bd : Bytes) (fuel : Nat) (chunks : List Bytes) :
    Except MPErr (List (Bytes × List Bytes)) :=
  match readNextChunk chunks with
  | Except.error e => Except.error e
  | Except.ok (c, rest) =>
    if (startBd bd).isPrefixOf c then
      partsLoop bd fuel (MState.mk (c.drop (boundaryBd bd).length) rest)
    else Except.error MPErr.noStartBoundary

/-- The two-part test stream of the specification, boundary `"X"`, split
right before the last byte of the mid-stream boundary token `\r\n--X`. -/
def chunkA1 : Bytes :=
  strBytes ("--X\r\nContent-Disposition: attachment; filename=\"a.bin\"\r\n\r\nhello\r\n-")

def chunkA2 : Bytes :=
  strBytes ("-X\r\nContent-Disposition: attachment; filename=\"b.bin\"\r\n\r\nworld\r\n--X--\r\n")

def streamS : Bytes := chunkA1 ++ chunkA2

def bdX : Bytes := strBytes ("X")

/-- The parts the specification demands for `streamS`. -/
def goodParts : List (Bytes × List Bytes) :=
  [(strBytes ("a.bin"), [strBytes ("hello")]),
   (strBytes ("b.bin"), [strBytes ("world")])]

/-!
The DeepZoom descriptor (`dzidesc.py`).  The Python module computes scales
with IEEE doubles (`2.0 ** k`, `math.floor`, `math.ceil`, `math.log2`,
`round`); for the integer magnitudes of slide geometry these operations are
exact, and they are modelled over `ℚ`/`ℤ`/`ℕ` with the same formulas.
`int(round(math.log2 x))` uses round-half-to-even, but `log2` of a rational
is never exactly half an odd integer, so the tie never occurs and rounding
is modelled as `⌊log2 x + 1/2⌋`, computed below from `Int.log 2 (x^2)`.
-/

/-- `Point` of `geometry.py`, with integer coordinates (all uses here are
integral). -/
structure Point where
  x : ℤ
  y : ℤ
deriving DecidableEq

/-- `Rect` of `geometry.py`: `set_points` normalises the two corners into
`left/top/right/bottom` with `min`/`max`. -/
structure Rect where
  left : ℤ
  top : ℤ
  right : ℤ
  bottom : ℤ
deriving DecidableEq

def mkRect (p q : Point) : Rect :=
  Rect.mk (min p.x q.x) (min p.y q.y) (max p.x q.x) (max p.y q.y)

/-- `Point.clip`: clamp the point into the rectangle. -/
def Point.clip (p : Point) (r : Rect) : Point :=
  Point.mk (max (min p.x r.right) r.left) (max (min p.y r.bottom) r.top)

/-- `DziDescription.__init__` fields (the constant `format` field is
omitted; calibration fields are optional, absent by default). -/
structure DziDescription where
  width : Nat
  height : Nat
  tile_size : Nat
  tile_overlap : Nat
  magnification : Option ℚ
  resolution : Option ℚ
deriving DecidableEq

/-- `ceil(log2 n)` for a positive natural `n`, by repeated halving with a
fuel bound (so that it evaluates inside the kernel); it agrees with
`Nat.clog 2`, see `ceilLog2_eq_clog` below. -/
def ceilLog2Fuel : Nat → Nat → Nat
  | 0, _ => 0
  | Nat.succ f, n => if n ≤ 1 then 0 else ceilLog2Fuel f ((n + 1) / 2) + 1

/-- `dzilevel_at_size`: `ceil(log2(max(width, height)))`. -/
def DziDescription.baselevel (d : DziDescription) : Nat :=
  ceilLog2Fuel (max d.width d.height) (max d.width d.height)

/-- `DziLevel`: a level is just the pair of its descriptor and its number
(`n_cols`/`n_rows` are recomputed on demand; they are pure functions of the
pair).  The level number is an integer: the source never validates it. -/
structure DziLevel where
  parent : DziDescription
  level : ℤ
deriving DecidableEq

/-- `DziDescription.level`: `return DziLevel(self, level)` — no check. -/
def DziDescription.level (d : DziDescription) (n : ℤ) : DziLevel :=
  DziLevel.mk d n

/-- `floor(w * 2.0**(lvl - base))` for a natural `w`: scaling by a power of
two is exact in IEEE doubles, so the floor is the integer quotient by
`2^(base - lvl)` when `lvl ≤ base` and the product otherwise. -/
def scaleFloor (w : Nat) (base lvl : ℤ) : Nat :=
  if base ≤ lvl then w * 2 ^ (lvl - base).toNat else w / 2 ^ (base - lvl).toNat

/-- `DziLevel.width`: `int(max(1, floor(parent.width * 2.0**(level - baselevel))))`. -/
def DziLevel.widthN (l : DziLevel) : Nat :=
  max 1 (scaleFloor l.parent.width (l.parent.baselevel : ℤ) l.level)

/-- `DziLevel.height`. -/
def DziLevel.heightN (l : DziLevel) : Nat :=
  max 1 (scaleFloor l.parent.height (l.parent.baselevel : ℤ) l.level)

/-- `DziLevel.cols`: `int(ceil(width / tile_size))`, the ceiling division
(exact: the float quotient of these magnitudes never rounds across an
integer). -/
def DziLevel.cols (l : DziLevel) : Nat :=
  (l.widthN + l.parent.tile_size - 1) / l.parent.tile_size

/-- `DziLevel.rows`. -/
def DziLevel.rows (l : DziLevel) : Nat :=
  (l.heightN + l.parent.tile_size - 1) / l.parent.tile_size

/-- `DziLevel.resolution`: `parent.resolution * 2.0**(baselevel - level)`. -/
def DziLevel.resolutionQ (l : DziLevel) : Option ℚ :=
  l.parent.resolution.map (fun r => r * (2 : ℚ) ^ ((l.parent.baselevel : ℤ) - l.level))

/-- `DziDescription.levels`: `[self.level(x) for x in range(2, maxlevel()+1)]`. -/
def DziDescription.levels (d : DziDescription) : List DziLevel :=
  (List.range' 2 (d.baselevel + 1 - 2)).map (fun (k : Nat) => d.level (k : ℤ))

/-- `DziDescription.level_approx_width`: base level when the request is at
least the base width, else the first listed level of sufficient width
(`next` on an empty filter raises, modelled as `none`). -/
def DziDescription.level_approx_width (d : DziDescription) (w : Nat) : Option DziLevel :=
  if d.width ≤ w then some (d.level (d.baselevel : ℤ))
  else (d.levels).find? (fun l => decide (w ≤ l.widthN))

/-- `int(round(math.log2 x))` for a positive rational, as
`⌊log2 x + 1/2⌋ = ⌊(⌊log2 (x^2)⌋ + 1) / 2⌋` (floor division). -/
def roundLog2 (x : ℚ) : ℤ := (Int.log 2 (x ^ 2) + 1).fdiv 2

/-- `DziDescription.level_at_mpp`: mirrors the source, including the falsy
`not self.resolution` test — true exactly when the optional resolution is
unset or zero, i.e. when `d.resolution.getD 0 = 0` — and the forcing of
`level_diff = 0` when the ratio is below one.  The returned resolution is
the level's `resolution()`, which is defined whenever this branch runs
(`getD 0` is only a totalisation of the unreachable `none` case). -/
def DziDescription.level_at_mpp (d : DziDescription) (mpp : ℚ) (always_smaller : Bool) :
    Except String (DziLevel × ℚ × ℚ) :=
  let r : ℚ := d.resolution.getD 0
  if r = 0 then Except.error ("resolution not set on this instance, method not available.")
  else
    let res_diff : ℚ := mpp / r
    let level_diff1 : ℤ := if always_smaller then Int.log 2 res_diff else roundLog2 res_diff
    let level_diff : ℤ := if res_diff < 1 then 0 else level_diff1
    let lvl : ℤ := (d.baselevel : ℤ) - level_diff
    let lvl_dzi := d.level lvl
    let mpp_at : ℚ := lvl_dzi.resolutionQ.getD 0
    Except.ok (lvl_dzi, mpp_at, mpp_at / mpp)

/-- `DziTile.__init__` output fields: `overlap` is the `(t, l, r, b)`
tuple, `width`/`height` the pixel size, `top_left` the placement ignoring
overlap, `crop` the crop rectangle.  (The parent back-reference is not
stored; every theorem below tracks the level explicitly.) -/
structure DziTile where
  level : ℤ
  col : ℤ
  row : ℤ
  overlap : ℤ × ℤ × ℤ × ℤ
  width : ℤ
  height : ℤ
  top_left : Point
  crop : Rect
deriving DecidableEq

/-- `DziLevel.tile` / `DziTile.__init__`: raises when `col >= n_cols` or
`row >= n_rows` (and only then); otherwise computes the edge-clamped
size, the placement point and the crop rectangle exactly as the source. -/
def mkTile (lv : DziLevel) (col row : ℤ) : Except String DziTile :=
  if (lv.cols : ℤ) ≤ col then Except.error ("column out of bounds")
  else if (lv.rows : ℤ) ≤ row then Except.error ("row out of bounds")
  else
    let o : ℤ := (lv.parent.tile_overlap : ℤ)
    let l : ℤ := if 0 < o ∧ col = 0 then 0 else o
    let r : ℤ := if 0 < o ∧ col = (lv.cols : ℤ) - 1 then 0 else o
    let t : ℤ := if 0 < o ∧ row = 0 then 0 else o
    let b : ℤ := if 0 < o ∧ row = (lv.rows : ℤ) - 1 then 0 else o
    let T : ℤ := (lv.parent.tile_size : ℤ)
    let width : ℤ :=
      if col = (lv.cols : ℤ) - 1 then
        (if (lv.widthN : ℤ) % T = 0 then T else (lv.widthN : ℤ) % T) + l + r
      else T + l + r
    let height : ℤ :=
      if row = (lv.rows : ℤ) - 1 then
        (if (lv.heightN : ℤ) % T = 0 then T else (lv.heightN : ℤ) % T) + t + b
      else T + t + b
    let bottom_left := Point.clip (Point.mk (T + l) (T + t)) (mkRect (Point.mk 0 0) (Point.mk width height))
    Except.ok (DziTile.mk lv.level col row (t, l, r, b) width height
      (Point.mk (col * T) (row * T)) (mkRect (Point.mk l t) bottom_left))

/-- `Except.isOk` as a plain definition. -/
def isOkE {ε α : Type} : Except ε α → Bool
  | Except.ok _ => true
  | Except.error _ => false

/-- The synthetic pyramid of the specification round-trip test. -/
def dzi1000 : DziDescription := DziDescription.mk 1000 1000 256 0 none none

/-- A degenerate two-pixel pyramid: its base level is `1`. -/
def dzi2 : DziDescription := DziDescription.mk 2 2 1 0 none none

/-- The synthetic pyramid with a physical resolution of half a micron per
pixel. -/
def dziRes : DziDescription := DziDescription.mk 1000 1000 256 0 none (some (1 / 2))

/-- The fuelled ceiling log agrees with `Nat.clog 2` whenever the fuel
dominates the argument (in particular at `baselevel`'s own arguments). -/
theorem ceilLog2_eq_clog : ∀ f n, n ≤ f → ceilLog2Fuel f n = Nat.clog 2 n := by
  intro f
  induction f with
  | zero => intro n hn; interval_cases n; simp [ceilLog2Fuel]
  | succ f ih =>
    intro n hn
    by_cases h1 : n ≤ 1
    · simp [ceilLog2Fuel, h1, Nat.clog_of_right_le_one h1]
    · have h2 : 2 ≤ n := by omega
      have hhalf : (n + 1) / 2 ≤ f := by omega
      simp [ceilLog2Fuel, h1, ih _ hhalf, Nat.clog_of_two_le one_lt_two h2]

/-- C1: the specification demands that for every chunking of the two-part
stream (boundary `"X"`, parts `a.bin`/`hello` and `b.bin`/`world`) into
chunks no shorter than the boundary token, the decoder yields exactly the
two parts.  The code satisfies this for the unsplit stream but not for the
two-chunk split `chunkA1 / chunkA2` that cuts the mid-stream boundary
token `\r\n--X` one byte before its end, although both chunks respect the
documented minimum chunk size: there the decoder emits the first part and
then fails with the end-of-stream error, because after detecting the
boundary at the junction it sets the buffer to
`next_chunk[:boundary_length-1+idx]` — a prefix that still contains token
bytes and silently drops the rest of the chunk — instead of the data that
follows the token. -/
theorem multipart_two_part_chunking_eval :
    partsRun bdX 50 [streamS] = Except.ok goodParts
    ∧ partsRun bdX 50 [chunkA1, chunkA2] = Except.error MPErr.endOfStream
    ∧ (boundaryBd bdX).length ≤ chunkA1.length
    ∧ (boundaryBd bdX).length ≤ chunkA2.length
    ∧ streamS = chunkA1 ++ chunkA2 := by
  refine ⟨by decide, by decide, by decide, by decide, rfl⟩

/-- C2: the specification says that when the boundary token straddles a
chunk read, the bytes before the token are yielded as the last body
fragment and exactly the bytes after the token become the new buffer.
With buffer `hello\r\n-` and next chunk `-X\r\nContent` the code does
yield `hello`, but sets the new buffer to `-X\r\nC` (the first
`boundary_length - 1 + idx` bytes of the chunk) instead of `\r\nContent`,
keeping token bytes and dropping the tail of the chunk.  Moreover a split
leaving `boundary_length - 1` token bytes in the buffer (match index `0`
in the join window, buffer `hello\r\n--` against chunk `X\r\nContent`) is
not detected at all, because of the strict `> 0` comparison: the token
bytes are yielded as body data and the parser runs off the stream. -/
theorem multipart_junction_step_eval :
    parsePartChunksLoop bdX 50 (MState.mk (strBytes ("hello\r\n-")) [strBytes ("-X\r\nContent")])
      = Except.ok ([strBytes ("hello")], MState.mk (strBytes ("-X\r\nC")) [])
    ∧ strBytes ("-X\r\nC") ≠ strBytes ("\r\nContent")
    ∧ parsePartChunksLoop bdX 50 (MState.mk (strBytes ("hello\r\n--")) [strBytes ("X\r\nContent")])
      = Except.error MPErr.endOfStream := by
  refine ⟨by decide, by decide, by decide⟩

/-- C3: after a boundary has been consumed, a buffer that starts with the
end token `--\r\n` terminates the stream successfully exactly when the
buffer is the end token and no chunk remains; any trailing byte after the
end token, or any further chunk, is the protocol violation error.  The two
stream-level conjuncts run the full decoder on the two-part stream with
trailing bytes after the final `--X--\r\n` and with an extra chunk after
it, and on the well-terminated stream. -/
theorem multipart_end_marker_strictness :
    (∀ extra chunks, extra ≠ [] →
      checkForEndOfStream (MState.mk (endDelim ++ extra) chunks)
        = Except.error MPErr.endDelimiterMidStream)
    ∧ (∀ chunks c, checkForEndOfStream (MState.mk endDelim (c :: chunks))
        = Except.error MPErr.endDelimiterMidStream)
    ∧ checkForEndOfStream (MState.mk endDelim []) = Except.ok (true, MState.mk endDelim [])
    ∧ partsRun bdX 50 [streamS ++ strBytes ("junk")] = Except.error MPErr.endDelimiterMidStream
    ∧ partsRun bdX 50 [streamS, strBytes ("extra")] = Except.error MPErr.endDelimiterMidStream
    ∧ partsRun bdX 50 [streamS] = Except.ok goodParts := by
  have h4 : endDelim.length = 4 := by decide
  refine ⟨?_, ?_, by decide, by decide, by decide, by decide⟩
  · intro extra chunks hx
    have hpre : endDelim.isPrefixOf (endDelim ++ extra) = true := by
      rw [List.isPrefixOf_iff_prefix]
      exact List.prefix_append _ _
    have hx0 : extra.length ≠ 0 := fun h => hx (List.length_eq_zero.mp h)
    have htop : topUpForEnd (MState.mk (endDelim ++ extra) chunks)
        = Except.ok (MState.mk (endDelim ++ extra) chunks) := by
      unfold topUpForEnd
      rw [if_neg]
      simp only [List.length_append, h4]
      omega
    unfold checkForEndOfStream
    rw [htop]
    simp only [hpre, if_true]
    rw [if_pos]
    simp only [List.length_append, h4]
    omega
  · intro chunks c
    have hpre : endDelim.isPrefixOf endDelim = true := by
      rw [List.isPrefixOf_iff_prefix]
    have htop : topUpForEnd (MState.mk endDelim (c :: chunks))
        = Except.ok (MState.mk endDelim (c :: chunks)) := by
      unfold topUpForEnd
      rw [if_neg]
      show ¬(endDelim.length < endDelim.length)
      omega
    unfold checkForEndOfStream
    rw [htop]
    simp [hpre]

/-- Witness for C3: the general conjuncts applied to a one-byte trailer
and to a leftover chunk. -/
theorem multipart_end_marker_strictness_witness :
    checkForEndOfStream (MState.mk (endDelim ++ strBytes ("!")) [])
      = Except.error MPErr.endDelimiterMidStream
    ∧ checkForEndOfStream (MState.mk endDelim [strBytes ("x")])
      = Except.error MPErr.endDelimiterMidStream :=
  ⟨multipart_end_marker_strictness.1 (strBytes ("!")) [] (by decide),
   multipart_end_marker_strictness.2.1 [] (strBytes ("x"))⟩

/-- Bounds for the edge-clamped tile size: positive and at most the tile
size. -/
theorem edgeSize_bounds (w T : ℤ) (hT : 0 < T) :
    0 < (if w % T = 0 then T else w % T) ∧ (if w % T = 0 then T else w % T) ≤ T := by
  have h0 : 0 ≤ w % T := Int.emod_nonneg w (by omega)
  have h1 : w % T < T := Int.emod_lt_of_pos w hT
  split_ifs with h <;> omega

/-- C4 counterexample: the raw accessor `level(n)` does not fail for `n`
outside `[0, baseLevel]`: on the `1000 × 1000`, tile-size-256 pyramid
(base level `10`), both `level(-1)` and `level(11)` return ordinary
`Level` objects (with computed widths `1` and `2000`), with no error and
no clamping. -/
theorem level_out_of_range_cex :
    dzi1000.baselevel = 10
    ∧ ((-1 : ℤ) < 0 ∧ (10 : ℤ) < 11)
    ∧ dzi1000.level (-1) = DziLevel.mk dzi1000 (-1)
    ∧ (dzi1000.level (-1)).widthN = 1
    ∧ dzi1000.level 11 = DziLevel.mk dzi1000 11
    ∧ (dzi1000.level 11).widthN = 2000 := by
  refine ⟨by decide, ⟨by decide, by decide⟩, rfl, by decide, rfl, by decide⟩

/-- C4 amended: `level(n)` performs no range validation at all: for every
descriptor and every integer `n` it returns the `Level` with exactly that
number (so it neither clamps nor raises; level numbers outside the float
exponent range, where Python would overflow, are outside this model). -/
theorem level_no_validation :
    ∀ (d : DziDescription) (n : ℤ), (d.level n).parent = d ∧ (d.level n).level = n :=
  fun _ _ => ⟨rfl, rfl⟩

/-- C8 counterexample: tile construction accepts negative indices: on the
base level of the `1000 × 1000` pyramid (grid `4 × 4`), `tile(-1, 0)` and
`tile(0, -2)` both succeed although `-1` and `-2` are outside the claimed
bounds. -/
theorem tile_negative_index_cex :
    (dzi1000.level 10).cols = 4
    ∧ (dzi1000.level 10).rows = 4
    ∧ isOkE (mkTile (dzi1000.level 10) (-1) 0) = true
    ∧ isOkE (mkTile (dzi1000.level 10) 0 (-2)) = true
    ∧ ((-1 : ℤ) < 0 ∧ (-2 : ℤ) < 0) := by
  refine ⟨by decide, by decide, by decide, by decide, by decide, by decide⟩

/-- C8 amended: tile construction checks only the upper bounds: it
succeeds exactly when `col < cols` and `row < rows`, so every negative
index is accepted.  (`tile_size > 0` matches the source, which divides by
it.) -/
theorem tile_bounds_upper_only :
    ∀ (lv : DziLevel) (col row : ℤ), 0 < lv.parent.tile_size →
      (isOkE (mkTile lv col row) = true ↔ (col < (lv.cols : ℤ) ∧ row < (lv.rows : ℤ))) := by
  intro lv col row _
  unfold mkTile
  by_cases h1 : (lv.cols : ℤ) ≤ col
  · rw [if_pos h1]
    simp [isOkE]
    omega
  · rw [if_neg h1]
    by_cases h2 : (lv.rows : ℤ) ≤ row
    · rw [if_pos h2]
      simp [isOkE]
      omega
    · rw [if_neg h2]
      simp [isOkE]
      omega

/-- Witness for C8 amended: the in-bounds corner tile `(3,3)` of the base
level of the `1000 × 1000` pyramid is constructible. -/
theorem tile_bounds_upper_only_witness :
    isOkE (mkTile (dzi1000.level 10) 3 3) = true :=
  (tile_bounds_upper_only (dzi1000.level 10) 3 3 (by decide)).mpr (by decide)

/-- C6: on the `1000 × 1000`, tile-size-256 pyramid the base level has a
`4 × 4` grid and tile `(3,3)` is `232 × 232` (`1000 - 3*256`); in
general (zero overlap), a tile in the final column/row has its edge equal
to the remainder of the level dimension by the tile size, with remainder
`0` meaning a full tile, and the edge is never zero. -/
theorem tile_edge_remainder :
    ((dzi1000.level 10).cols = 4 ∧ (dzi1000.level 10).rows = 4
      ∧ mkTile (dzi1000.level 10) 3 3
          = Except.ok (DziTile.mk 10 3 3 (0, 0, 0, 0) 232 232
              (Point.mk 768 768) (Rect.mk 0 0 232 232)))
    ∧ (∀ (d : DziDescription) (n col row : ℤ) (t : DziTile),
        0 < d.tile_size → d.tile_overlap = 0 →
        mkTile (d.level n) col row = Except.ok t →
        (col = ((d.level n).cols : ℤ) - 1 →
          t.width = (if ((d.level n).widthN : ℤ) % (d.tile_size : ℤ) = 0
                     then (d.tile_size : ℤ) else ((d.level n).widthN : ℤ) % (d.tile_size : ℤ))
          ∧ 0 < t.width)
        ∧ (row = ((d.level n).rows : ℤ) - 1 →
          t.height = (if ((d.level n).heightN : ℤ) % (d.tile_size : ℤ) = 0
                      then (d.tile_size : ℤ) else ((d.level n).heightN : ℤ) % (d.tile_size : ℤ))
          ∧ 0 < t.height)) := by
  refine ⟨⟨by decide, by decide, by decide⟩, ?_⟩
  intro d n col row t hT ho hok
  unfold mkTile at hok
  by_cases h1 : (((d.level n).cols : ℤ)) ≤ col
  · rw [if_pos h1] at hok
    exact absurd hok (by simp)
  rw [if_neg h1] at hok
  by_cases h2 : (((d.level n).rows : ℤ)) ≤ row
  · rw [if_pos h2] at hok
    exact absurd hok (by simp)
  rw [if_neg h2] at hok
  simp only [DziDescription.level] at hok ho ⊢
  rw [ho] at hok
  simp only [Int.ofNat_zero, lt_self_iff_false, false_and, if_false, add_zero] at hok
  have ht := (Except.ok.inj hok).symm
  subst ht
  constructor
  · intro hcol
    rw [if_pos hcol]
    have := edgeSize_bounds ((DziLevel.mk d n).widthN : ℤ) (d.tile_size : ℤ) (by exact_mod_cast hT)
    constructor
    · rfl
    · exact this.1
  · intro hrow
    rw [if_pos hrow]
    have := edgeSize_bounds ((DziLevel.mk d n).heightN : ℤ) (d.tile_size : ℤ) (by exact_mod_cast hT)
    constructor
    · rfl
    · exact this.1

/-- Witness for C6's general part: the corner tile `(3,3)` of the
`1000 × 1000` pyramid has the remainder edge `232` and it is positive. -/
theorem tile_edge_remainder_witness :
    ∃ t, mkTile (dzi1000.level 10) 3 3 = Except.ok t ∧ t.width = 232 ∧ 0 < t.width := by
  have hok := tile_edge_remainder.1.2.2
  refine ⟨_, hok, by decide, ?_⟩
  exact ((tile_edge_remainder.2 dzi1000 10 3 3 _ (by decide) rfl hok).1 (by decide)).2

/-- C10: with zero overlap, an in-bounds tile's crop rectangle is the
whole tile, `Rect((0,0),(width,height))`, and its placement point is
`(col*tile_size, row*tile_size)`. -/
theorem tile_zero_overlap_crop :
    ∀ (d : DziDescription) (n col row : ℤ) (t : DziTile),
      0 < d.tile_size → d.tile_overlap = 0 →
      mkTile (d.level n) col row = Except.ok t →
      0 ≤ col → 0 ≤ row →
      t.crop = Rect.mk 0 0 t.width t.height
      ∧ t.top_left = Point.mk (col * (d.tile_size : ℤ)) (row * (d.tile_size : ℤ)) := by
  intro d n col row t hT ho hok hc hr
  unfold mkTile at hok
  by_cases h1 : (((d.level n).cols : ℤ)) ≤ col
  · rw [if_pos h1] at hok
    exact absurd hok (by simp)
  rw [if_neg h1] at hok
  by_cases h2 : (((d.level n).rows : ℤ)) ≤ row
  · rw [if_pos h2] at hok
    exact absurd hok (by simp)
  rw [if_neg h2] at hok
  simp only [DziDescription.level] at hok ho ⊢
  rw [ho] at hok
  simp only [Int.ofNat_zero, lt_self_iff_false, false_and, if_false, add_zero] at hok
  have hTZ : (0 : ℤ) < (d.tile_size : ℤ) := by exact_mod_cast hT
  set w : ℤ := if col = ((DziLevel.mk d n).cols : ℤ) - 1 then
      (if ((DziLevel.mk d n).widthN : ℤ) % (d.tile_size : ℤ) = 0
       then (d.tile_size : ℤ) else ((DziLevel.mk d n).widthN : ℤ) % (d.tile_size : ℤ))
    else (d.tile_size : ℤ) with hw
  set h : ℤ := if row = ((DziLevel.mk d n).rows : ℤ) - 1 then
      (if ((DziLevel.mk d n).heightN : ℤ) % (d.tile_size : ℤ) = 0
       then (d.tile_size : ℤ) else ((DziLevel.mk d n).heightN : ℤ) % (d.tile_size : ℤ))
    else (d.tile_size : ℤ) with hh
  have hwb : 0 < w ∧ w ≤ (d.tile_size : ℤ) := by
    rw [hw]
    have h0 : 0 ≤ ((DziLevel.mk d n).widthN : ℤ) % (d.tile_size : ℤ) :=
      Int.emod_nonneg _ (by omega)
    have hlt : ((DziLevel.mk d n).widthN : ℤ) % (d.tile_size : ℤ) < (d.tile_size : ℤ) :=
      Int.emod_lt_of_pos _ hTZ
    split_ifs with hc1 hc2 <;> constructor <;> omega
  have hhb : 0 < h ∧ h ≤ (d.tile_size : ℤ) := by
    rw [hh]
    have h0 : 0 ≤ ((DziLevel.mk d n).heightN : ℤ) % (d.tile_size : ℤ) :=
      Int.emod_nonneg _ (by omega)
    have hlt : ((DziLevel.mk d n).heightN : ℤ) % (d.tile_size : ℤ) < (d.tile_size : ℤ) :=
      Int.emod_lt_of_pos _ hTZ
    split_ifs with hc1 hc2 <;> constructor <;> omega
  have ht := (Except.ok.inj hok).symm
  subst ht
  refine ⟨?_, rfl⟩
  obtain ⟨hw0, hwT⟩ := hwb
  obtain ⟨hh0, hhT⟩ := hhb
  simp only [mkRect, Point.clip, Rect.mk.injEq]
  refine ⟨by omega, by omega, by omega, by omega⟩

/-- `List.find?` over an arithmetic range returns the first qualifying
number: it satisfies the predicate, lies in the range, and everything in
the range before it fails the predicate. -/
theorem find?_range'_first :
    ∀ (n s : Nat) (q : Nat → Bool) (k : Nat),
      (List.range' s n).find? q = some k →
      q k = true ∧ s ≤ k ∧ k < s + n ∧ ∀ j, s ≤ j → j < k → q j = false := by
  intro n
  induction n with
  | zero =>
    intro s q k h
    simp [List.range'] at h
  | succ n ih =>
    intro s q k h
    rw [List.range'_succ] at h
    cases hqs : q s with
    | true =>
      rw [List.find?_cons_of_pos _ hqs] at h
      have hk := Option.some.inj h
      subst hk
      exact ⟨hqs, le_refl _, by omega, fun j h1 h2 => absurd (lt_of_le_of_lt h1 h2) (lt_irrefl _)⟩
    | false =>
      rw [List.find?_cons_of_neg _ (by simp [hqs])] at h
      obtain ⟨hq, hk1, hk2, hmin⟩ := ih (s + 1) q k h
      refine ⟨hq, by omega, by omega, ?_⟩
      intro j hj1 hj2
      rcases Nat.eq_or_lt_of_le hj1 with hj | hj
      · rw [← hj]; exact hqs
      · exact hmin j hj hj2

/-- The width of the base level is the base width. -/
theorem widthN_base (d : DziDescription) (hW : 0 < d.width) :
    (d.level (d.baselevel : ℤ)).widthN = d.width := by
  unfold DziLevel.widthN DziDescription.level scaleFloor
  rw [if_pos (le_refl _)]
  simp
  omega

/-- C5 counterexample: on the `1000 × 1000`, tile-size-256 pyramid, a
requested width of `1` is satisfied by level `0` (width `1`), the lowest
level of the whole range `[0, baseLevel]`, yet `level_approx_width`
returns level `2`: the scan never considers levels `0` and `1`. -/
theorem level_approx_width_whole_range_cex :
    dzi1000.level_approx_width 1 = some (dzi1000.level 2)
    ∧ (dzi1000.level 0).widthN = 1
    ∧ 1 ≤ (dzi1000.level 0).widthN
    ∧ (dzi1000.level 0).level < (dzi1000.level 2).level := by
  refine ⟨by decide, by decide, by decide, by decide⟩

/-- C5 amended: for `w ≥ W` the base level is returned; otherwise the
result is the first (lowest) level *of the scanned range `[2, baseLevel]`*
whose width reaches `w` — every scanned level below it is too narrow, but
levels `0` and `1` are never scanned.  (For `w < W` a result exists
whenever `baseLevel ≥ 2`, since the base level qualifies.) -/
theorem level_approx_width_lowest_scanned :
    ∀ (d : DziDescription) (w : Nat),
      (d.width ≤ w → d.level_approx_width w = some (d.level (d.baselevel : ℤ)))
      ∧ (w < d.width → 2 ≤ d.baselevel →
          ∃ lv, d.level_approx_width w = some lv
            ∧ lv.parent = d
            ∧ 2 ≤ lv.level ∧ lv.level ≤ (d.baselevel : ℤ)
            ∧ w ≤ lv.widthN
            ∧ ∀ j : Nat, 2 ≤ j → (j : ℤ) < lv.level → (d.level (j : ℤ)).widthN < w) := by
  intro d w
  constructor
  · intro hw
    unfold DziDescription.level_approx_width
    rw [if_pos hw]
  · intro hw hb
    unfold DziDescription.level_approx_width
    rw [if_neg (by omega)]
    unfold DziDescription.levels
    rw [List.find?_map _ _]
    cases hf : (List.range' 2 (d.baselevel + 1 - 2)).find?
        ((fun l => decide (w ≤ l.widthN)) ∘ fun (k : Nat) => d.level (k : ℤ)) with
    | none =>
      exfalso
      have hmem : d.baselevel ∈ List.range' 2 (d.baselevel + 1 - 2) := by
        rw [List.mem_range'_1]
        omega
      have hko := List.find?_eq_none.mp hf _ hmem
      simp only [Function.comp_apply, decide_eq_true_eq] at hko
      rw [widthN_base d (by omega)] at hko
      omega
    | some k =>
      obtain ⟨hq, hk2, _, hmin⟩ := find?_range'_first _ _ _ _ hf
      simp only [Function.comp_apply, decide_eq_true_eq] at hq
      have hkle : k ≤ d.baselevel := by
        have hmem := List.mem_of_find?_eq_some hf
        rw [List.mem_range'_1] at hmem
        omega
      refine ⟨d.level (k : ℤ), rfl, rfl, ?_, ?_, hq, ?_⟩
      · show (2 : ℤ) ≤ (k : ℤ)
        exact_mod_cast hk2
      · show ((k : ℤ)) ≤ (d.baselevel : ℤ)
        exact_mod_cast hkle
      · intro j hj2 hjlt
        have hjlt2 : (j : ℤ) < (k : ℤ) := hjlt
        have hjk : j < k := by exact_mod_cast hjlt2
        have hjf := hmin j hj2 hjk
        simp only [Function.comp_apply, decide_eq_false_iff_not, not_le] at hjf
        exact hjf

/-- Witness for C5 amended: both branches at the `1000 × 1000` pyramid,
with requests `1000` (at least the base width) and `500` (below it). -/
theorem level_approx_width_lowest_scanned_witness :
    dzi1000.level_approx_width 1000 = some (dzi1000.level 10)
    ∧ ∃ lv, dzi1000.level_approx_width 500 = some lv
        ∧ lv.parent = dzi1000
        ∧ 2 ≤ lv.level ∧ lv.level ≤ (10 : ℤ)
        ∧ 500 ≤ lv.widthN
        ∧ ∀ j : Nat, 2 ≤ j → (j : ℤ) < lv.level → (dzi1000.level (j : ℤ)).widthN < 500 := by
  constructor
  · have h := (level_approx_width_lowest_scanned dzi1000 1000).1 (by decide)
    rw [h]
    rfl
  · have h := (level_approx_width_lowest_scanned dzi1000 500).2 (by decide) (by decide)
    rw [show ((dzi1000.baselevel : ℤ)) = (10 : ℤ) from by decide] at h
    exact h

/-- C9 counterexample: `level_approx_width` can return a level numbered
below `2`: on a `2 × 2` pyramid the base level is `1`, `levels()` is
empty, and a request of width `5` takes the `width >= W` branch and
returns level `1`. -/
theorem levels_from_two_cex :
    dzi2.baselevel = 1
    ∧ dzi2.levels = []
    ∧ dzi2.level_approx_width 5 = some (dzi2.level 1)
    ∧ (dzi2.level 1).level < 2 := by
  refine ⟨by decide, by decide, by decide, by decide⟩

/-- C9 amended: `levels()` is exactly the levels numbered `2` through
`baselevel`, ascending — levels `0` and `1` never appear — and whenever
`baselevel ≥ 2`, `level_approx_width` only returns levels numbered at
least `2` (for degenerate pyramids with `baselevel < 2` the
`width ≥ W` branch returns the base level itself, which is below `2`). -/
theorem levels_from_two :
    ∀ d : DziDescription,
      ((d.levels).map (fun l => l.level)
        = (List.range' 2 (d.baselevel + 1 - 2)).map (fun (k : Nat) => (k : ℤ)))
      ∧ (∀ l ∈ d.levels, l.parent = d ∧ 2 ≤ l.level ∧ l.level ≤ (d.baselevel : ℤ))
      ∧ List.Pairwise (fun a b => a.level < b.level) d.levels
      ∧ (2 ≤ d.baselevel → ∀ w lv, d.level_approx_width w = some lv →
          2 ≤ lv.level ∧ lv.level ≤ (d.baselevel : ℤ)) := by
  intro d
  have hmem : ∀ l ∈ d.levels, l.parent = d ∧ 2 ≤ l.level ∧ l.level ≤ (d.baselevel : ℤ) := by
    intro l hl
    unfold DziDescription.levels at hl
    rw [List.mem_map] at hl
    obtain ⟨k, hk, rfl⟩ := hl
    rw [List.mem_range'_1] at hk
    refine ⟨rfl, ?_, ?_⟩
    · show (2 : ℤ) ≤ (k : ℤ)
      exact_mod_cast hk.1
    · show ((k : ℤ)) ≤ (d.baselevel : ℤ)
      have hkb : k ≤ d.baselevel := by omega
      exact_mod_cast hkb
  refine ⟨?_, hmem, ?_, ?_⟩
  · unfold DziDescription.levels
    rw [List.map_map]
    rfl
  · unfold DziDescription.levels
    refine List.Pairwise.map _ ?_ (List.pairwise_lt_range' 2 (d.baselevel + 1 - 2))
    intro a b hab
    show ((a : ℤ)) < (b : ℤ)
    exact_mod_cast hab
  · intro hb w lv hlv
    unfold DziDescription.level_approx_width at hlv
    by_cases hw : d.width ≤ w
    · rw [if_pos hw] at hlv
      have heq := Option.some.inj hlv
      subst heq
      constructor
      · show (2 : ℤ) ≤ (d.baselevel : ℤ)
        exact_mod_cast hb
      · show ((d.baselevel : ℤ)) ≤ (d.baselevel : ℤ)
        exact le_refl _
    · rw [if_neg hw] at hlv
      have hmem2 := List.mem_of_find?_eq_some hlv
      exact ⟨(hmem lv hmem2).2.1, (hmem lv hmem2).2.2⟩

/-- Witness for C9 amended: the `1000 × 1000` pyramid (base level `10`)
satisfies the `baselevel ≥ 2` branch at request width `500`. -/
theorem levels_from_two_witness :
    2 ≤ (dzi1000.level 9).level ∧ (dzi1000.level 9).level ≤ (dzi1000.baselevel : ℤ) := by
  have h := (levels_from_two dzi1000).2.2.2 (by decide) 500 (dzi1000.level 9) (by decide)
  exact h

/-- `roundLog2` is nearest-integer rounding of `log2`: squaring the
argument turns `⌊log2 x + 1/2⌋` into bounds by powers of two. -/
theorem roundLog2_bounds (x : ℚ) (hx : 0 < x) :
    (2 : ℚ) ^ (2 * roundLog2 x - 1) ≤ x ^ 2
    ∧ x ^ 2 < (2 : ℚ) ^ (2 * roundLog2 x + 1) := by
  have hx2 : 0 < x ^ 2 := by positivity
  have h1 : (2 : ℚ) ^ (Int.log 2 (x ^ 2)) ≤ x ^ 2 := Int.zpow_log_le_self (by norm_num) hx2
  have h2 : x ^ 2 < (2 : ℚ) ^ (Int.log 2 (x ^ 2) + 1) := Int.lt_zpow_succ_log_self (by norm_num) _
  have hk : roundLog2 x = (Int.log 2 (x ^ 2) + 1) / 2 := by
    unfold roundLog2
    exact Int.fdiv_eq_ediv _ (by norm_num)
  have hcase : Int.log 2 (x ^ 2) = 2 * roundLog2 x - 1 ∨ Int.log 2 (x ^ 2) = 2 * roundLog2 x := by
    rw [hk]
    have hde := Int.ediv_add_emod (Int.log 2 (x ^ 2) + 1) 2
    have he0 := Int.emod_nonneg (Int.log 2 (x ^ 2) + 1) (by norm_num : (2 : ℤ) ≠ 0)
    have he1 := Int.emod_lt_of_pos (Int.log 2 (x ^ 2) + 1) (by norm_num : (0 : ℤ) < 2)
    omega
  constructor
  · calc (2 : ℚ) ^ (2 * roundLog2 x - 1)
        ≤ (2 : ℚ) ^ (Int.log 2 (x ^ 2)) := zpow_le_zpow_right₀ (by norm_num) (by omega)
      _ ≤ x ^ 2 := h1
  · calc x ^ 2 < (2 : ℚ) ^ (Int.log 2 (x ^ 2) + 1) := h2
      _ ≤ (2 : ℚ) ^ (2 * roundLog2 x + 1) := zpow_le_zpow_right₀ (by norm_num) (by omega)

/-- C7: `level_at_mpp` fails when the resolution is unset; with resolution
`R > 0` and request `mpp > 0` it returns the level numbered
`baseLevel - levelDiff` together with that level's actual resolution
`R * 2^(baseLevel - level)` and the ratio of actual to requested
resolution, where `levelDiff` is forced to `0` when `mpp/R < 1` (so the
base level is returned), is `floor(log2(mpp/R))` when the higher
resolution is preferred (characterised by `2^k ≤ mpp/R < 2^(k+1)`), and
is `round(log2(mpp/R))` otherwise (characterised on squares by
`2^(2k-1) ≤ (mpp/R)^2 < 2^(2k+1)`). -/
theorem level_at_mpp_spec :
    ∀ (d : DziDescription) (mpp : ℚ) (pref : Bool),
      (d.resolution = none →
        d.level_at_mpp mpp pref
          = Except.error ("resolution not set on this instance, method not available."))
      ∧ (∀ R : ℚ, d.resolution = some R → 0 < R → 0 < mpp →
          ∃ lv act rat, d.level_at_mpp mpp pref = Except.ok (lv, act, rat)
            ∧ lv.parent = d
            ∧ act = R * (2 : ℚ) ^ ((d.baselevel : ℤ) - lv.level)
            ∧ rat = act / mpp
            ∧ (mpp / R < 1 → lv.level = (d.baselevel : ℤ))
            ∧ (1 ≤ mpp / R → pref = true →
                (2 : ℚ) ^ ((d.baselevel : ℤ) - lv.level) ≤ mpp / R
                ∧ mpp / R < (2 : ℚ) ^ ((d.baselevel : ℤ) - lv.level + 1))
            ∧ (1 ≤ mpp / R → pref = false →
                (2 : ℚ) ^ (2 * ((d.baselevel : ℤ) - lv.level) - 1) ≤ (mpp / R) ^ 2
                ∧ (mpp / R) ^ 2 < (2 : ℚ) ^ (2 * ((d.baselevel : ℤ) - lv.level) + 1))) := by
  intro d mpp pref
  constructor
  · intro h
    unfold DziDescription.level_at_mpp
    rw [h]
    rfl
  · intro R hR hRpos hmpp
    have hx0 : 0 < mpp / R := div_pos hmpp hRpos
    unfold DziDescription.level_at_mpp
    rw [hR]
    simp only [Option.getD_some]
    rw [if_neg hRpos.ne']
    simp only [DziLevel.resolutionQ, DziDescription.level, hR, Option.map_some', Option.getD_some]
    refine ⟨_, _, _, rfl, rfl, ?_, rfl, ?_, ?_, ?_⟩
    · show R * (2 : ℚ) ^ ((d.baselevel : ℤ) - ((d.baselevel : ℤ) - _)) = _
      rfl
    · intro hlt
      show ((d.baselevel : ℤ))
          - (if mpp / R < 1 then 0
             else if pref then Int.log 2 (mpp / R) else roundLog2 (mpp / R))
          = (d.baselevel : ℤ)
      rw [if_pos hlt]
      ring
    · intro hge hpref
      have hD : (if mpp / R < 1 then 0
             else if pref then Int.log 2 (mpp / R) else roundLog2 (mpp / R))
          = Int.log 2 (mpp / R) := by
        rw [if_neg (not_lt.mpr hge), hpref]
        simp
      show (2 : ℚ) ^ ((d.baselevel : ℤ) - (((d.baselevel : ℤ)) - _)) ≤ mpp / R
        ∧ mpp / R < (2 : ℚ) ^ ((d.baselevel : ℤ) - (((d.baselevel : ℤ)) - _) + 1)
      rw [hD, sub_sub_cancel]
      exact ⟨Int.zpow_log_le_self (by norm_num) hx0,
        Int.lt_zpow_succ_log_self (by norm_num) _⟩
    · intro hge hpref
      have hD : (if mpp / R < 1 then 0
             else if pref then Int.log 2 (mpp / R) else roundLog2 (mpp / R))
          = roundLog2 (mpp / R) := by
        rw [if_neg (not_lt.mpr hge), hpref]
        simp
      show (2 : ℚ) ^ (2 * ((d.baselevel : ℤ) - (((d.baselevel : ℤ)) - _)) - 1) ≤ (mpp / R) ^ 2
        ∧ (mpp / R) ^ 2 < (2 : ℚ) ^ (2 * ((d.baselevel : ℤ) - (((d.baselevel : ℤ)) - _)) + 1)
      rw [hD, sub_sub_cancel]
      exact roundLog2_bounds _ hx0

/-- Witness for C7: the uncalibrated pyramid fails, and the pyramid with
resolution `1/2` at a request of `4` microns per pixel (ratio `8`) yields
a level with the stated resolution and ratio bounds. -/
theorem level_at_mpp_spec_witness :
    (dzi1000.level_at_mpp 4 false
      = Except.error ("resolution not set on this instance, method not available."))
    ∧ (∃ lv act rat, dziRes.level_at_mpp 4 false = Except.ok (lv, act, rat)
        ∧ lv.parent = dziRes
        ∧ act = (1 / 2 : ℚ) * (2 : ℚ) ^ ((dziRes.baselevel : ℤ) - lv.level)
        ∧ rat = act / 4
        ∧ ((4 : ℚ) / (1 / 2) < 1 → lv.level = (dziRes.baselevel : ℤ))
        ∧ (1 ≤ (4 : ℚ) / (1 / 2) → false = true →
            (2 : ℚ) ^ ((dziRes.baselevel : ℤ) - lv.level) ≤ 4 / (1 / 2)
            ∧ (4 : ℚ) / (1 / 2) < (2 : ℚ) ^ ((dziRes.baselevel : ℤ) - lv.level + 1))
        ∧ (1 ≤ (4 : ℚ) / (1 / 2) → false = false →
            (2 : ℚ) ^ (2 * ((dziRes.baselevel : ℤ) - lv.level) - 1) ≤ ((4 : ℚ) / (1 / 2)) ^ 2
            ∧ ((4 : ℚ) / (1 / 2)) ^ 2 < (2 : ℚ) ^ (2 * ((dziRes.baselevel : ℤ) - lv.level) + 1))) :=
  ⟨(level_at_mpp_spec dzi1000 4 false).1 rfl,
   (level_at_mpp_spec dziRes 4 false).2 (1 / 2) rfl (by norm_num) (by norm_num)⟩

/-- Witness for C10: the interior tile `(1,1)` of the base level of the
`1000 × 1000` pyramid has the full-tile crop `Rect((0,0),(256,256))` and
placement `(256,256)`. -/
theorem tile_zero_overlap_crop_witness :
    mkTile (dzi1000.level 10) 1 1
      = Except.ok (DziTile.mk 10 1 1 (0, 0, 0, 0) 256 256
          (Point.mk 256 256) (Rect.mk 0 0 256 256))
    ∧ (DziTile.mk 10 1 1 ((0 : ℤ), (0 : ℤ), (0 : ℤ), (0 : ℤ)) 256 256
          (Point.mk 256 256) (Rect.mk 0 0 256 256)).crop = Rect.mk 0 0 256 256
    ∧ (DziTile.mk 10 1 1 ((0 : ℤ), (0 : ℤ), (0 : ℤ), (0 : ℤ)) 256 256
          (Point.mk 256 256) (Rect.mk 0 0 256 256)).top_left
        = Point.mk (1 * (dzi1000.tile_size : ℤ)) (1 * (dzi1000.tile_size : ℤ)) := by
  have hok : mkTile (dzi1000.level 10) 1 1
      = Except.ok (DziTile.mk 10 1 1 (0, 0, 0, 0) 256 256
          (Point.mk 256 256) (Rect.mk 0 0 256 256)) := by decide
  have h := tile_zero_overlap_crop dzi1000 10 1 1 _ (by decide) rfl hok (by decide) (by decide)
  exact ⟨hok, h.1, h.2⟩
